import Mathlib

/-!
Shallow embedding of the netstore UDP file server (`src/server.cpp`).

The server keeps a space ledger (`available_space`, `negative_space`),
an ordered catalog of files, and a set of open (partially written)
files.  Command handlers (`remove`, `list`, `fetch`, `upload`) and the
startup indexing (`index_files`) are translated here as pure functions
on an explicit `ServerState`.  The wire codec (`connection.h`, with
`SIMPL_CMD` / `CMPLX_CMD` and helpers such as `check_data_not_empty`)
is not part of the sources; where one of its behaviours matters it is
modelled from the spec and marked as such.

The disk is modelled by storing, with each catalog entry, the size that
`file_size` would report for its backing path; `fs::remove` of the
backing file corresponds to erasing the entry.
-/

namespace Netstore

/-- A catalog entry: the display name (`path.filename().string()`) and the
size that `file_size` reports for the backing path. -/
structure FileEntry where
  name : String
  size : Nat
  deriving DecidableEq, Repr

/-- `server_state` from `server.cpp` (the network resources, which carry no
accounting information, are omitted): available storage, over-commit debt,
the ordered file catalog, and the set of files being written. -/
structure ServerState where
  available_space : Nat
  negative_space : Nat
  files : List FileEntry
  open_files : List String
  deriving DecidableEq, Repr

/-- Replies a handler may send back over UDP. -/
inductive Reply where
  | goodDay (availableSpace : Nat)
  | myList (payload : String)
  | connectMe
  | canAdd
  | noWay (fname : String)
  | err (msg : String)
  deriving DecidableEq, Repr

/-! ### Startup indexing (`index_files`, server.cpp lines 146-172) -/

/-- One step of `index_files`: push the file into the catalog, then either
subtract its size from `available_space` or, if it does not fit, zero
`available_space` and add the shortfall to `negative_space`. -/
def reserve (st : ServerState) (e : FileEntry) : ServerState :=
  if st.available_space < e.size then
    { st with
      files := st.files ++ [e]
      available_space := 0
      negative_space := st.negative_space + (e.size - st.available_space) }
  else
    { st with
      files := st.files ++ [e]
      available_space := st.available_space - e.size }

/-- `index_files`: start from `available_space = MAX_SPACE`, debt 0, and
reserve space for every regular file of the shared folder in turn. -/
def index_files (quota : Nat) (entries : List FileEntry) : ServerState :=
  entries.foldl reserve
    { available_space := quota, negative_space := 0, files := [], open_files := [] }

/-! ### Catalog scans -/

/-- The iterator search of `remove` / the loop of `upload`: first catalog
entry whose display name equals `target`. -/
def findFile : List FileEntry → String → Option FileEntry
  | [], _ => none
  | e :: rest, target => if e.name == target then some e else findFile rest target

/-- `files.erase(it)` at the iterator found by `findFile`: drop the first
entry whose display name equals `target`. -/
def eraseFile : List FileEntry → String → List FileEntry
  | [], _ => []
  | e :: rest, target => if e.name == target then rest else e :: eraseFile rest target

/-! ### `remove` (server.cpp lines 224-249) -/

/-- `remove`: on a non-empty payload, look the file up; if found, refund its
size (debt is repaid before capacity is restored), delete the backing file
and erase the catalog entry.  `remove` itself never sends a reply; the
non-empty check is `check_data_not_empty`, whose error reply on an empty
payload is modelled from the spec (invalid command usage is answered with
an error reply). -/
def remove (st : ServerState) (target : String) : ServerState × List Reply :=
  if target.isEmpty then
    (st, [Reply.err "Invalid data."])
  else
    match findFile st.files target with
    | none => (st, [])
    | some e =>
      if 0 < st.negative_space then
        if e.size < st.negative_space then
          ({ st with
              negative_space := st.negative_space - e.size
              files := eraseFile st.files target }, [])
        else
          ({ st with
              negative_space := 0
              available_space := st.available_space + (e.size - st.negative_space)
              files := eraseFile st.files target }, [])
      else
        ({ st with
            available_space := st.available_space + e.size
            files := eraseFile st.files target }, [])

/-! ### `upload` admission (server.cpp lines 445-474) -/

/-- The admission test of `upload`: reject when the declared size exceeds
`available_space`, the name is already in the catalog, the name contains
a `/`, or the name is empty. -/
def uploadRejected (st : ServerState) (fname : String) (declaredSize : Nat) : Bool :=
  decide (st.available_space < declaredSize) ||
  (st.files.any fun e => e.name == fname) ||
  fname.toList.contains '/' ||
  fname.isEmpty

/-- `upload`: on rejection reply `NO_WAY` and change nothing; on acceptance
charge the declared size against `available_space` and push the new file
into the catalog (before the transfer handshake is spawned).  The `CAN_ADD`
reply is sent later by `receive_file` in the spawned process. -/
def upload (st : ServerState) (fname : String) (declaredSize : Nat) :
    ServerState × List Reply :=
  if uploadRejected st fname declaredSize then
    (st, [Reply.noWay fname])
  else
    ({ st with
        available_space := st.available_space - declaredSize
        files := st.files ++ [{ name := fname, size := declaredSize }] }, [])

/-! ### `list` (search, server.cpp lines 252-279) -/

/-- `hasPrefixChars name pat`: `pat` is a prefix of `name` (character lists). -/
def hasPrefixChars : List Char → List Char → Bool
  | _, [] => true
  | [], _ :: _ => false
  | c :: cs, p :: ps => c == p && hasPrefixChars cs ps

/-- `containsSub pat name`: `name.find(pat) != npos`, i.e. `pat` occurs as a
contiguous substring of `name` (the empty pattern always matches). -/
def containsSub (pat : List Char) : List Char → Bool
  | [] => hasPrefixChars [] pat
  | c :: cs => hasPrefixChars (c :: cs) pat || containsSub pat cs

/-- The collection loop of `list`: display names of catalog entries whose
name contains the request payload as a substring, in catalog order. -/
def matchingNames (files : List FileEntry) (pat : String) : List String :=
  (files.map FileEntry.name).filter fun n => containsSub pat.toList n.toList

/-- The inner packing loop of `list`: while more results remain and
`data.size() + current.size() + 1 < maxLen` (note: `current` is the name
most recently appended, not the next one), pop the next name and append it
to `data` after a newline.  Returns the packet payload and the remaining
names. -/
def packInner (maxLen : Nat) (data current : String) :
    List String → String × List String
  | [] => (data, [])
  | next :: rest =>
    if data.length + current.length + 1 < maxLen then
      packInner maxLen (data ++ "\n" ++ next) next rest
    else
      (data, next :: rest)

/-- The outer packing loop of `list`, with explicit fuel (one unit per
emitted packet; `names.length` units always suffice since every packet
consumes at least one name). -/
def packGo (maxLen : Nat) : Nat → List String → List String
  | 0, _ => []
  | _, [] => []
  | fuel + 1, first :: rest =>
    let step := packInner maxLen first first rest
    step.1 :: packGo maxLen fuel step.2

/-- The packing of `list`: successive `MY_LIST` payloads for a list of
matching names.  Zero matches yield zero packets (the `while` loop body
never runs). -/
def pack (maxLen : Nat) (names : List String) : List String :=
  packGo maxLen names.length names

/-- `list`: payloads of the `MY_LIST` replies sent for a search request,
in sending order.  `maxLen` is `MAX_SIMPL_DATA_LEN` from `connection.h`. -/
def list (maxLen : Nat) (st : ServerState) (pat : String) : List String :=
  pack maxLen (matchingNames st.files pat)

/-! ### `fetch` (server.cpp lines 360-377) and `send_file` -/

/-- Possible outcomes of a spawned transfer, as seen from the ledger: the
spawned process never reports back, so the outcome is an opaque input. -/
inductive TransferOutcome where
  | success
  | timeout
  | failure
  deriving DecidableEq, Repr

/-- `fetch`: if the name is in the catalog, fork `send_file`, which sends
`CONNECT_ME` and streams the bytes; otherwise send an error reply.  Neither
`fetch` nor `send_file` touches the ledger or the catalog, whatever the
transfer outcome. -/
def fetch (st : ServerState) (target : String) (_outcome : TransferOutcome) :
    ServerState × List Reply :=
  match findFile st.files target with
  | some _ => (st, [Reply.connectMe])
  | none => (st, [Reply.err "Invalid file name."])

/-! ### `receive_file` (server.cpp lines 380-441)

The byte-copy loop interacts with the operating system through `read` on
the client socket and `write` on the backing file.  A run of the loop is
described by the first `read` result and an oracle list of pairs
`(w, r)`: the result of the `write` issued in one iteration, followed by
the `read` result obtained at the end of that iteration.  A realistic
oracle (POSIX: a `write` asked for `n` bytes returns between 0 and `n`)
is captured by `goodOracle`. -/

/-- The `while` loop of `receive_file`.  State: `remaining_file_size`
(signed, may only stay non-negative through realistic writes), the last
`read` result, the error flag, and the total number of bytes written so
far.  Returns `(written, remaining, lastRead, error_occurred)`.  When the
oracle runs out the loop state is returned as is (the post-loop check
flags the error if the copy is incomplete). -/
def recvLoop : Int → Int → Bool → Nat → List (Int × Int) → Nat × Int × Int × Bool
  | remaining, readLen, err, written, [] => (written, remaining, readLen, err)
  | remaining, readLen, err, written, (w, r) :: rest =>
    if 0 < remaining ∧ 0 < readLen ∧ err = false then
      recvLoop (remaining - w) r
        (if w ≠ min readLen remaining then true else err)
        (written + w.toNat) rest
    else
      (written, remaining, readLen, err)

/-- A realistic system-call oracle: whenever the loop would issue a write,
the reported write result lies between 0 and the requested count
`min readLen remaining`. -/
def goodOracle : Int → Int → List (Int × Int) → Bool
  | _, _, [] => true
  | remaining, readLen, (w, r) :: rest =>
    if 0 < remaining ∧ 0 < readLen then
      (0 ≤ w ∧ w ≤ min readLen remaining : Bool) && goodOracle (remaining - w) r rest
    else
      true

/-- Outcome of one `receive_file` run. -/
structure RecvOutcome where
  total_written : Nat
  error_occurred : Bool
  file_created : Bool
  file_deleted : Bool
  deriving DecidableEq, Repr

/-- `std::set` insertion. -/
def setInsert (s : List String) (x : String) : List String :=
  if x ∈ s then s else x :: s

/-- `std::set` erasure. -/
def setErase (s : List String) (x : String) : List String :=
  s.filter fun y => y ≠ x

/-- `receive_file`: after sending `CAN_ADD`, wait for the client to
connect (`connected` is the `select` outcome).  On connection, create the
backing file, register it in `open_files`, run the copy loop, then flag an
error if the last read failed or the declared size was not reached
exactly; on error unlink the backing file.  `open_files` is always erased
afterwards.  The ledger and the catalog are never touched (and the code
runs in a forked child anyway). -/
def receive_file (st : ServerState) (declaredSize : Nat) (fname : String)
    (connected : Bool) (firstRead : Int) (oracle : List (Int × Int)) :
    ServerState × RecvOutcome :=
  if connected then
    let run := recvLoop (declaredSize : Int) firstRead false 0 oracle
    let written := run.1
    let remaining := run.2.1
    let lastRead := run.2.2.1
    let errFlag := run.2.2.2
    let error_occurred := errFlag || decide (lastRead < 0) || decide (remaining ≠ 0)
    ({ st with open_files := setErase (setInsert st.open_files fname) fname },
     { total_written := written
       error_occurred := error_occurred
       file_created := true
       file_deleted := error_occurred })
  else
    ({ st with open_files := setErase st.open_files fname },
     { total_written := 0
       error_occurred := false
       file_created := false
       file_deleted := false })

/-! ### Command routing (server.cpp lines 205-212 and 477-520) -/

/-- `command_equal`: every byte of the fixed-width command field past the
expected name must be NUL, and the field must start with the name. -/
def command_equal (cmd : List Char) (command : String) : Bool :=
  ((cmd.drop command.length).all fun c => c == '\x00') &&
  cmd.take command.length == command.toList

/-- The handler a datagram is routed to. -/
inductive Route where
  | rHello
  | rDel
  | rList
  | rGet
  | rAdd
  | rInvalid
  deriving DecidableEq, Repr

/-- The routing chain of `read_requests`: try the five known command names
with `command_equal`; anything else gets the generic invalid-command error
reply. -/
def dispatch (cmd : List Char) : Route :=
  if command_equal cmd "HELLO" then Route.rHello
  else if command_equal cmd "DEL" then Route.rDel
  else if command_equal cmd "LIST" then Route.rList
  else if command_equal cmd "GET" then Route.rGet
  else if command_equal cmd "ADD" then Route.rAdd
  else Route.rInvalid

/-! ### Sequences of state-mutating handler steps -/

/-- A state-mutating command step: a `remove`, an `upload` admission, or a
`fetch` (which never mutates). -/
inductive Cmd where
  | del (target : String)
  | add (fname : String) (declaredSize : Nat)
  | get (target : String) (outcome : TransferOutcome)
  deriving DecidableEq, Repr

/-- Apply one command-handler step to the server state. -/
def applyCmd (st : ServerState) : Cmd → ServerState
  | Cmd.del target => (remove st target).1
  | Cmd.add fname declaredSize => (upload st fname declaredSize).1
  | Cmd.get target outcome => (fetch st target outcome).1

/-- Run a sequence of command-handler steps. -/
def runCmds (st : ServerState) (cmds : List Cmd) : ServerState :=
  cmds.foldl applyCmd st

/-! ### Ledger bookkeeping -/

/-- Total size of the files in the catalog. -/
def totalSize (files : List FileEntry) : Nat :=
  (files.map FileEntry.size).sum

/-- The ledger books balance: free space plus indexed bytes equals quota
plus debt, and debt is only positive while free space is exhausted. -/
def LedgerOK (quota : Nat) (st : ServerState) : Prop :=
  st.available_space + totalSize st.files = quota + st.negative_space ∧
  (0 < st.negative_space → st.available_space = 0)

/-! ## Helper lemmas -/

theorem totalSize_append (l₁ l₂ : List FileEntry) :
    totalSize (l₁ ++ l₂) = totalSize l₁ + totalSize l₂ := by
  simp [totalSize]

theorem findFile_eq_none (files : List FileEntry) (target : String)
    (h : ∀ e ∈ files, e.name ≠ target) : findFile files target = none := by
  induction files with
  | nil => rfl
  | cons f rest ih =>
    have hf : f.name ≠ target := h f (List.mem_cons_self f rest)
    simp only [findFile, beq_iff_eq, if_neg hf]
    exact ih fun e he => h e (List.mem_cons_of_mem f he)

theorem findFile_eraseFile_totalSize (files : List FileEntry) (target : String)
    (e : FileEntry) (h : findFile files target = some e) :
    totalSize files = totalSize (eraseFile files target) + e.size := by
  induction files with
  | nil => simp [findFile] at h
  | cons f rest ih =>
    by_cases hf : f.name = target
    · simp only [findFile, beq_iff_eq, if_pos hf, Option.some.injEq] at h
      subst h
      simp only [eraseFile, beq_iff_eq, if_pos hf]
      simp [totalSize]
      omega
    · simp only [findFile, beq_iff_eq, if_neg hf] at h
      simp only [eraseFile, beq_iff_eq, if_neg hf]
      have := ih h
      simp [totalSize] at this ⊢
      omega

theorem ledgerOK_reserve (quota : Nat) (st : ServerState) (e : FileEntry)
    (h : LedgerOK quota st) : LedgerOK quota (reserve st e) := by
  obtain ⟨hsum, himp⟩ := h
  have hcase : st.negative_space = 0 ∨ st.available_space = 0 :=
    (Nat.eq_zero_or_pos st.negative_space).imp id himp
  simp only [totalSize] at hsum
  unfold reserve
  by_cases hlt : st.available_space < e.size
  · rw [if_pos hlt]
    refine ⟨?_, fun _ => rfl⟩
    simp only [totalSize, List.map_append, List.sum_append, List.map_cons,
      List.sum_cons, List.map_nil, List.sum_nil]
    omega
  · rw [if_neg hlt]
    refine ⟨?_, fun hneg => ?_⟩
    · simp only [totalSize, List.map_append, List.sum_append, List.map_cons,
        List.sum_cons, List.map_nil, List.sum_nil]
      omega
    · simp only at hneg ⊢
      omega

theorem ledgerOK_index_aux (quota : Nat) (entries : List FileEntry) :
    ∀ st : ServerState, LedgerOK quota st →
      LedgerOK quota (entries.foldl reserve st) := by
  induction entries with
  | nil => intro st h; exact h
  | cons e rest ih =>
    intro st h
    exact ih (reserve st e) (ledgerOK_reserve quota st e h)

theorem ledgerOK_index (quota : Nat) (entries : List FileEntry) :
    LedgerOK quota (index_files quota entries) := by
  refine ledgerOK_index_aux quota entries _ ⟨?_, ?_⟩
  · simp [totalSize]
  · intro h
    simp at h

theorem ledgerOK_remove (quota : Nat) (st : ServerState) (target : String)
    (h : LedgerOK quota st) : LedgerOK quota (remove st target).1 := by
  obtain ⟨hsum, himp⟩ := h
  have hcase : st.negative_space = 0 ∨ st.available_space = 0 :=
    (Nat.eq_zero_or_pos st.negative_space).imp id himp
  simp only [totalSize] at hsum
  unfold remove
  by_cases hempty : target.isEmpty
  · rw [if_pos hempty]
    exact ⟨by simpa [totalSize] using hsum, himp⟩
  · rw [if_neg hempty]
    cases hfind : findFile st.files target with
    | none => exact ⟨by simpa [totalSize] using hsum, himp⟩
    | some e =>
      have hsz := findFile_eraseFile_totalSize st.files target e hfind
      simp only [totalSize] at hsz
      dsimp only
      by_cases hneg : 0 < st.negative_space
      · by_cases hlt : e.size < st.negative_space
        · rw [if_pos hneg, if_pos hlt]
          refine ⟨?_, fun hn => ?_⟩
          · simp only [totalSize]
            omega
          · simp only at hn ⊢
            omega
        · rw [if_pos hneg, if_neg hlt]
          refine ⟨?_, fun hn => ?_⟩
          · simp only [totalSize]
            omega
          · simp only at hn
            omega
      · rw [if_neg hneg]
        refine ⟨?_, fun hn => ?_⟩
        · simp only [totalSize]
          omega
        · simp only at hn ⊢
          omega

theorem ledgerOK_upload (quota : Nat) (st : ServerState) (fname : String)
    (declaredSize : Nat) (h : LedgerOK quota st) :
    LedgerOK quota (upload st fname declaredSize).1 := by
  obtain ⟨hsum, himp⟩ := h
  have hcase : st.negative_space = 0 ∨ st.available_space = 0 :=
    (Nat.eq_zero_or_pos st.negative_space).imp id himp
  simp only [totalSize] at hsum
  unfold upload
  by_cases hrej : uploadRejected st fname declaredSize
  · rw [if_pos hrej]
    exact ⟨by simpa [totalSize] using hsum, himp⟩
  · have hfits : ¬ st.available_space < declaredSize := by
      intro hc
      apply hrej
      simp [uploadRejected, hc]
    rw [if_neg hrej]
    refine ⟨?_, fun hneg => ?_⟩
    · simp only [totalSize, List.map_append, List.sum_append, List.map_cons,
        List.sum_cons, List.map_nil, List.sum_nil]
      omega
    · simp only at hneg ⊢
      omega

theorem fetch_fst (st : ServerState) (target : String)
    (outcome : TransferOutcome) : (fetch st target outcome).1 = st := by
  unfold fetch
  cases findFile st.files target <;> rfl

theorem ledgerOK_applyCmd (quota : Nat) (st : ServerState) (c : Cmd)
    (h : LedgerOK quota st) : LedgerOK quota (applyCmd st c) := by
  cases c with
  | del target => exact ledgerOK_remove quota st target h
  | add fname declaredSize => exact ledgerOK_upload quota st fname declaredSize h
  | get target outcome => rw [applyCmd, fetch_fst]; exact h

theorem ledgerOK_runCmds (quota : Nat) (cmds : List Cmd) :
    ∀ st : ServerState, LedgerOK quota st → LedgerOK quota (runCmds st cmds) := by
  induction cmds with
  | nil => intro st h; exact h
  | cons c rest ih =>
    intro st h
    exact ih (applyCmd st c) (ledgerOK_applyCmd quota st c h)

theorem uploadRejected_iff (st : ServerState) (fname : String)
    (declaredSize : Nat) :
    uploadRejected st fname declaredSize = true ↔
      (st.available_space < declaredSize ∨ (∃ e ∈ st.files, e.name = fname) ∨
        '/' ∈ fname.toList ∨ fname = "") := by
  simp [uploadRejected, List.any_eq_true, String.isEmpty_iff, or_assoc]

/-- An empty server state with 100 free bytes, for concrete witnesses. -/
def st100 : ServerState :=
  { available_space := 100, negative_space := 0, files := [], open_files := [] }

/-- A server state holding one indexed file `abc` of size 3, for concrete
witnesses. -/
def stAbc : ServerState :=
  { available_space := 10, negative_space := 0,
    files := [{ name := "abc", size := 3 }], open_files := [] }

/-! ## Claims -/

/-- C1: when a catalog file of size `s` is removed while `negative_space`
is positive, the refund first repays `min(negative_space, s)` of the debt
and only the remainder of `s` is added to `available_space`; concretely,
with quota 100 and one startup file of size 150 (`available_space = 0`,
`negative_space = 50`), removing that file ends with `negative_space = 0`
and `available_space = 100`. -/
theorem remove_refund_repays_debt_first (st : ServerState) (target : String)
    (e : FileEntry) (hne : target.isEmpty = false)
    (hfind : findFile st.files target = some e)
    (hneg : 0 < st.negative_space) :
    ((remove st target).1.negative_space
        = st.negative_space - min st.negative_space e.size ∧
      (remove st target).1.available_space
        = st.available_space + (e.size - min st.negative_space e.size)) ∧
    ((index_files 100 [{ name := "f", size := 150 }]).available_space = 0 ∧
      (index_files 100 [{ name := "f", size := 150 }]).negative_space = 50 ∧
      (remove (index_files 100 [{ name := "f", size := 150 }]) "f").1.negative_space
        = 0 ∧
      (remove (index_files 100 [{ name := "f", size := 150 }]) "f").1.available_space
        = 100) := by
  refine ⟨?_, by decide⟩
  unfold remove
  rw [if_neg (by simp [hne]), hfind]
  dsimp only
  rw [if_pos hneg]
  by_cases hlt : e.size < st.negative_space
  · rw [if_pos hlt]
    exact ⟨by simp only []; omega, by simp only []; omega⟩
  · rw [if_neg hlt]
    exact ⟨by simp only []; omega, by simp only []; omega⟩

/-- Witness for C1 at the spec scenario: quota 100, one startup file of
size 150, removal of that file. -/
theorem remove_refund_repays_debt_first_witness :
    (remove (index_files 100 [{ name := "f", size := 150 }]) "f").1.negative_space
        = (index_files 100 [{ name := "f", size := 150 }]).negative_space
          - min (index_files 100 [{ name := "f", size := 150 }]).negative_space 150 ∧
    (remove (index_files 100 [{ name := "f", size := 150 }]) "f").1.available_space
        = (index_files 100 [{ name := "f", size := 150 }]).available_space
          + (150 - min (index_files 100 [{ name := "f", size := 150 }]).negative_space 150) :=
  (remove_refund_repays_debt_first (index_files 100 [{ name := "f", size := 150 }])
    "f" { name := "f", size := 150 } (by decide) (by decide) (by decide)).1

/-- C2: an upload request with declared size `S` and filename `F` is
answered with the `NO_WAY` ("cannot accept") reply exactly when
`S > available_space`, or `F` is already in the catalog, or `F` contains a
path separator, or `F` is empty; and a rejected request leaves the state
(ledger and catalog) unchanged. -/
theorem upload_rejection_iff (st : ServerState) (fname : String)
    (declaredSize : Nat) :
    ((upload st fname declaredSize).2 = [Reply.noWay fname] ↔
      (st.available_space < declaredSize ∨ (∃ e ∈ st.files, e.name = fname) ∨
        '/' ∈ fname.toList ∨ fname = "")) ∧
    ((upload st fname declaredSize).2 = [Reply.noWay fname] →
      (upload st fname declaredSize).1 = st) := by
  by_cases hrej : uploadRejected st fname declaredSize
  · rw [show (upload st fname declaredSize) = (st, [Reply.noWay fname]) by
      unfold upload; rw [if_pos hrej]]
    exact ⟨by simpa using (uploadRejected_iff st fname declaredSize).mp hrej,
      fun _ => rfl⟩
  · have hrej' : uploadRejected st fname declaredSize = false :=
      Bool.not_eq_true _ ▸ eq_false_of_ne_true hrej
    refine ⟨?_, ?_⟩
    · rw [show (upload st fname declaredSize).2 = [] by
        unfold upload; rw [if_neg hrej]]
      constructor
      · intro hc
        exact absurd hc (by simp)
      · intro hc
        exact absurd ((uploadRejected_iff st fname declaredSize).mpr hc) hrej
    · intro hc
      rw [show (upload st fname declaredSize).2 = [] by
        unfold upload; rw [if_neg hrej]] at hc
      exact absurd hc (by simp)

/-- Witness for C2 at a concrete rejected request (name contains `/`). -/
theorem upload_rejection_iff_witness :
    (upload st100 "a/b" 10).2 = [Reply.noWay "a/b"] ∧
    (upload st100 "a/b" 10).1 = st100 := by
  have h := upload_rejection_iff st100 "a/b" 10
  have hrej := h.1.mpr (Or.inr (Or.inr (Or.inl (by decide))))
  exact ⟨hrej, h.2 hrej⟩

/-- C6: an accepted upload with declared size `S` and filename `F`
decrements `available_space` by exactly `S`, leaves `negative_space`
unchanged, and puts `F` into the catalog at admission time, so a second
upload of `F` (any declared size) is rejected as a duplicate while the
first transfer is still pending. -/
theorem upload_charges_and_reserves_name (st : ServerState) (fname : String)
    (declaredSize : Nat) (hacc : uploadRejected st fname declaredSize = false) :
    (upload st fname declaredSize).1.available_space + declaredSize
        = st.available_space ∧
    (upload st fname declaredSize).1.available_space
        = st.available_space - declaredSize ∧
    (upload st fname declaredSize).1.negative_space = st.negative_space ∧
    (∃ e ∈ (upload st fname declaredSize).1.files, e.name = fname) ∧
    (∀ declaredSize₂ : Nat,
      (upload (upload st fname declaredSize).1 fname declaredSize₂).2
        = [Reply.noWay fname]) := by
  have hfits : ¬ st.available_space < declaredSize := by
    intro hc
    have : uploadRejected st fname declaredSize = true := by
      simp [uploadRejected, hc]
    simp [this] at hacc
  have hupl : (upload st fname declaredSize)
      = ({ st with
            available_space := st.available_space - declaredSize,
            files := st.files ++ [{ name := fname, size := declaredSize }] }, []) := by
    unfold upload
    rw [if_neg (by simp [hacc])]
  rw [hupl]
  refine ⟨by simp only []; omega, rfl, rfl, ?_, ?_⟩
  · exact ⟨{ name := fname, size := declaredSize }, by simp, rfl⟩
  · intro declaredSize₂
    have hr : uploadRejected
        ({ st with
            available_space := st.available_space - declaredSize,
            files := st.files ++ [{ name := fname, size := declaredSize }] })
        fname declaredSize₂ = true := by
      simp [uploadRejected]
    unfold upload
    rw [if_pos hr]

/-- Witness for C6 at a concrete accepted upload followed by a duplicate. -/
theorem upload_charges_and_reserves_name_witness :
    (upload st100 "g" 30).1.available_space + 30 = st100.available_space ∧
    (upload (upload st100 "g" 30).1 "g" 5).2 = [Reply.noWay "g"] := by
  have h := upload_charges_and_reserves_name st100 "g" 30 (by decide)
  exact ⟨h.1, h.2.2.2.2 5⟩

/-- C7: in every state reachable from startup indexing by command-handler
steps, `available_space` and `negative_space` are never both positive, and
`available_space` never exceeds the configured quota. -/
theorem reachable_ledger_invariant (quota : Nat) (entries : List FileEntry)
    (cmds : List Cmd) :
    ((runCmds (index_files quota entries) cmds).negative_space = 0 ∨
      (runCmds (index_files quota entries) cmds).available_space = 0) ∧
    (runCmds (index_files quota entries) cmds).available_space ≤ quota := by
  obtain ⟨hsum, himp⟩ :=
    ledgerOK_runCmds quota cmds (index_files quota entries)
      (ledgerOK_index quota entries)
  have hcase :
      (runCmds (index_files quota entries) cmds).negative_space = 0 ∨
        (runCmds (index_files quota entries) cmds).available_space = 0 :=
    (Nat.eq_zero_or_pos _).imp id himp
  refine ⟨hcase, ?_⟩
  rcases hcase with h0 | h0 <;> omega

/-- A state whose catalog holds `a` (size 1) then `bbb` (size 3), the input
on which the pagination bound fails. -/
def stListBug : ServerState :=
  { available_space := 0, negative_space := 0,
    files := [{ name := "a", size := 1 }, { name := "bbb", size := 3 }],
    open_files := [] }

/-- C3 evaluated at a failing input: with maximum payload size 4 and the
catalog names `a` and `bbb` (all matching the empty search), the packing
loop admits `bbb` into the packet of `a` — its guard measures the
previously appended name, not the next one — and sends one payload of
length 5, not strictly under the bound 4 (the concatenation of payloads
still reproduces the names in order). -/
theorem list_payload_can_exceed_bound :
    matchingNames stListBug.files "" = ["a", "bbb"] ∧
    list 4 stListBug "" = ["a\nbbb"] ∧
    ¬ ("a\nbbb".length < 4) := by decide

/-- C4 counterexample: a search with zero matching filenames produces no
reply datagram at all, not one reply with an empty payload. -/
theorem list_zero_matches_counterexample :
    matchingNames stAbc.files "zzz" = [] ∧
    list 100 stAbc "zzz" = [] ∧
    (list 100 stAbc "zzz").length ≠ 1 := by decide

/-- C4 (amended): for every search request with zero matching filenames,
the server sends no reply datagram at all (the reply loop runs once per
packet and zero matches yield zero packets). -/
theorem list_zero_matches_no_reply (maxLen : Nat) (st : ServerState)
    (pat : String) (h : matchingNames st.files pat = []) :
    list maxLen st pat = [] := by
  unfold list pack
  rw [h]
  rfl

/-- Witness for the amended C4 at a concrete non-matching search. -/
theorem list_zero_matches_no_reply_witness : list 100 stAbc "zzz" = [] :=
  list_zero_matches_no_reply 100 stAbc "zzz" (by decide)

/-- C8: a fetch request never changes the ledger or the catalog, whatever
the transfer outcome, and a fetch of an unknown filename is answered with
an error reply. -/
theorem fetch_preserves_state (st : ServerState) (target : String)
    (outcome : TransferOutcome) :
    (fetch st target outcome).1 = st ∧
    ((∀ e ∈ st.files, e.name ≠ target) →
      (fetch st target outcome).2 = [Reply.err "Invalid file name."]) := by
  refine ⟨fetch_fst st target outcome, fun hmiss => ?_⟩
  unfold fetch
  rw [findFile_eq_none st.files target hmiss]

/-- Witness for C8: fetching a name absent from a concrete catalog. -/
theorem fetch_preserves_state_witness :
    (fetch stAbc "zzz" TransferOutcome.success).1 = stAbc ∧
    (fetch stAbc "zzz" TransferOutcome.success).2
      = [Reply.err "Invalid file name."] := by
  have h := fetch_preserves_state stAbc "zzz" TransferOutcome.success
  exact ⟨h.1, h.2 (by decide)⟩

/-- C9: a remove request (with non-empty target) sends no reply, whether
or not the target is found, and when the target is not in the catalog the
whole state is left unchanged. -/
theorem remove_silent_when_missing (st : ServerState) (target : String)
    (hne : target.isEmpty = false) :
    (remove st target).2 = [] ∧
    ((∀ e ∈ st.files, e.name ≠ target) → (remove st target).1 = st) := by
  have hni : ¬(target.isEmpty = true) := by simp [hne]
  constructor
  · unfold remove
    rw [if_neg hni]
    cases hfind : findFile st.files target with
    | none => rfl
    | some e =>
      dsimp only
      by_cases hneg : 0 < st.negative_space
      · by_cases hlt : e.size < st.negative_space
        · rw [if_pos hneg, if_pos hlt]
        · rw [if_pos hneg, if_neg hlt]
      · rw [if_neg hneg]
  · intro hmiss
    unfold remove
    rw [if_neg hni, findFile_eq_none st.files target hmiss]

/-- Witness for C9: removing a name absent from a concrete catalog. -/
theorem remove_silent_when_missing_witness :
    (remove stAbc "zzz").2 = [] ∧ (remove stAbc "zzz").1 = stAbc := by
  have h := remove_silent_when_missing stAbc "zzz" (by decide)
  exact ⟨h.1, h.2 (by decide)⟩

theorem recvLoop_budget (oracle : List (Int × Int)) :
    ∀ (remaining readLen : Int) (err : Bool) (written : Nat),
      0 ≤ remaining → goodOracle remaining readLen oracle = true →
      ((recvLoop remaining readLen err written oracle).1 : Int)
          + (recvLoop remaining readLen err written oracle).2.1
          = (written : Int) + remaining ∧
      0 ≤ (recvLoop remaining readLen err written oracle).2.1 := by
  induction oracle with
  | nil =>
    intro remaining readLen err written h0 _
    exact ⟨rfl, h0⟩
  | cons p rest ih =>
    obtain ⟨w, r⟩ := p
    intro remaining readLen err written h0 hgood
    unfold recvLoop
    by_cases hc : 0 < remaining ∧ 0 < readLen ∧ err = false
    · rw [if_pos hc]
      have hgood' : ((0 ≤ w ∧ w ≤ min readLen remaining : Bool) &&
          goodOracle (remaining - w) r rest) = true := by
        unfold goodOracle at hgood
        rwa [if_pos ⟨hc.1, hc.2.1⟩] at hgood
      have hw : 0 ≤ w ∧ w ≤ min readLen remaining := by
        have := ((Bool.and_eq_true _ _).mp hgood').1
        simpa using this
      have h0' : 0 ≤ remaining - w := by
        have hmin : min readLen remaining ≤ remaining := min_le_right _ _
        omega
      have hrest := ih (remaining - w) r
        (if w ≠ min readLen remaining then true else err) (written + w.toNat)
        h0' ((Bool.and_eq_true _ _).mp hgood').2
      obtain ⟨h1, h2⟩ := hrest
      refine ⟨?_, h2⟩
      rw [h1]
      have := hw.1
      omega
    · rw [if_neg hc]
      exact ⟨rfl, h0⟩

/-- C5: under a realistic system-call oracle (each write result lies
between 0 and the requested count), an upload transfer writes at most the
declared size in total even if the client sends more; if the transfer is
not flagged failed the declared size was written exactly, so a stream that
ends early (or any short write) leaves the failed flag set; on failure the
backing file is deleted; and `receive_file` never changes the ledger or
the catalog (the charge is not refunded). -/
theorem receive_file_never_overruns (st : ServerState) (declaredSize : Nat)
    (fname : String) (connected : Bool) (firstRead : Int)
    (oracle : List (Int × Int))
    (hgood : goodOracle (declaredSize : Int) firstRead oracle = true) :
    (receive_file st declaredSize fname connected firstRead oracle).2.total_written
        ≤ declaredSize ∧
    (connected = true →
      (receive_file st declaredSize fname connected firstRead oracle).2.error_occurred
          = false →
      (receive_file st declaredSize fname connected firstRead oracle).2.total_written
          = declaredSize) ∧
    (connected = true →
      (receive_file st declaredSize fname connected firstRead oracle).2.total_written
          < declaredSize →
      (receive_file st declaredSize fname connected firstRead oracle).2.error_occurred
          = true) ∧
    ((receive_file st declaredSize fname connected firstRead oracle).2.error_occurred
          = true →
      (receive_file st declaredSize fname connected firstRead oracle).2.file_deleted
          = true) ∧
    (receive_file st declaredSize fname connected firstRead oracle).1.available_space
        = st.available_space ∧
    (receive_file st declaredSize fname connected firstRead oracle).1.negative_space
        = st.negative_space ∧
    (receive_file st declaredSize fname connected firstRead oracle).1.files
        = st.files := by
  cases connected with
  | false =>
    refine ⟨by simp [receive_file], fun hc => absurd hc (by simp), fun hc => absurd hc (by simp),
      fun hc => ?_, rfl, rfl, rfl⟩
    · exact absurd hc (by simp [receive_file])
  | true =>
    obtain ⟨hsum, hpos⟩ :=
      recvLoop_budget oracle (declaredSize : Int) firstRead false 0
        (Int.ofNat_nonneg declaredSize) hgood
    have hout : (receive_file st declaredSize fname true firstRead oracle).2
        = { total_written := (recvLoop (declaredSize : Int) firstRead false 0 oracle).1
            error_occurred :=
              (recvLoop (declaredSize : Int) firstRead false 0 oracle).2.2.2 ||
              decide ((recvLoop (declaredSize : Int) firstRead false 0 oracle).2.2.1 < 0) ||
              decide ((recvLoop (declaredSize : Int) firstRead false 0 oracle).2.1 ≠ 0)
            file_created := true
            file_deleted :=
              (recvLoop (declaredSize : Int) firstRead false 0 oracle).2.2.2 ||
              decide ((recvLoop (declaredSize : Int) firstRead false 0 oracle).2.2.1 < 0) ||
              decide ((recvLoop (declaredSize : Int) firstRead false 0 oracle).2.1 ≠ 0) } :=
      rfl
    rw [hout]
    dsimp only
    refine ⟨by omega, fun _ herr => ?_, fun _ hlt => ?_, fun h => h, rfl, rfl, rfl⟩
    · simp only [Bool.or_eq_false_iff, decide_eq_false_iff_not, not_not] at herr
      have hrem := herr.2
      omega
    · by_contra hne
      simp only [Bool.or_eq_true, not_or, decide_eq_true_eq] at hne
      push_neg at hne
      omega

/-- Witness for C5 at a concrete successful transfer: declared size 3,
first read of 2 bytes, then a read of 1 byte, all writes complete. -/
theorem receive_file_never_overruns_witness :
    (receive_file st100 3 "g" true 2 [(2, 1), (1, 0)]).2.total_written ≤ 3 ∧
    (receive_file st100 3 "g" true 2 [(2, 1), (1, 0)]).2.total_written = 3 := by
  have h := receive_file_never_overruns st100 3 "g" true 2 [(2, 1), (1, 0)]
    (by decide)
  exact ⟨h.1, h.2.1 rfl (by decide)⟩

theorem command_equal_nul (cmd : List Char) (s : String)
    (h : command_equal cmd s = true) :
    ((cmd.drop s.length).all fun c => c == '\x00') = true :=
  ((Bool.and_eq_true _ _).mp h).1

/-- C10: a datagram's command field is routed to a handler only if every
byte of the field after the expected name is NUL; extending a valid name
with a non-NUL byte (`HELLOX` padded to the fixed width) falls through the
whole routing chain to the generic invalid-command reply. -/
theorem dispatch_requires_nul_padding :
    (∀ cmd : List Char, dispatch cmd = Route.rHello →
      ((cmd.drop 5).all fun c => c == '\x00') = true) ∧
    (∀ cmd : List Char, dispatch cmd = Route.rDel →
      ((cmd.drop 3).all fun c => c == '\x00') = true) ∧
    (∀ cmd : List Char, dispatch cmd = Route.rList →
      ((cmd.drop 4).all fun c => c == '\x00') = true) ∧
    (∀ cmd : List Char, dispatch cmd = Route.rGet →
      ((cmd.drop 3).all fun c => c == '\x00') = true) ∧
    (∀ cmd : List Char, dispatch cmd = Route.rAdd →
      ((cmd.drop 3).all fun c => c == '\x00') = true) ∧
    dispatch "HELLOX\x00\x00\x00\x00".toList = Route.rInvalid := by
  refine ⟨?_, ?_, ?_, ?_, ?_, by decide⟩
  · intro cmd h
    unfold dispatch at h
    split_ifs at h with h1 h2 h3 h4 h5
    exact command_equal_nul cmd "HELLO" h1
  · intro cmd h
    unfold dispatch at h
    split_ifs at h with h1 h2 h3 h4 h5
    exact command_equal_nul cmd "DEL" h2
  · intro cmd h
    unfold dispatch at h
    split_ifs at h with h1 h2 h3 h4 h5
    exact command_equal_nul cmd "LIST" h3
  · intro cmd h
    unfold dispatch at h
    split_ifs at h with h1 h2 h3 h4 h5
    exact command_equal_nul cmd "GET" h4
  · intro cmd h
    unfold dispatch at h
    split_ifs at h with h1 h2 h3 h4 h5
    exact command_equal_nul cmd "ADD" h5

/-- Witness for C10 at concrete NUL-padded ten-byte command fields. -/
theorem dispatch_requires_nul_padding_witness :
    (("HELLO\x00\x00\x00\x00\x00".toList.drop 5).all fun c => c == '\x00') = true ∧
    (("DEL\x00\x00\x00\x00\x00\x00\x00".toList.drop 3).all fun c => c == '\x00') = true ∧
    (("LIST\x00\x00\x00\x00\x00\x00".toList.drop 4).all fun c => c == '\x00') = true ∧
    (("GET\x00\x00\x00\x00\x00\x00\x00".toList.drop 3).all fun c => c == '\x00') = true ∧
    (("ADD\x00\x00\x00\x00\x00\x00\x00".toList.drop 3).all fun c => c == '\x00') = true :=
  ⟨dispatch_requires_nul_padding.1 "HELLO\x00\x00\x00\x00\x00".toList (by decide),
    dispatch_requires_nul_padding.2.1 "DEL\x00\x00\x00\x00\x00\x00\x00".toList (by decide),
    dispatch_requires_nul_padding.2.2.1 "LIST\x00\x00\x00\x00\x00\x00".toList (by decide),
    dispatch_requires_nul_padding.2.2.2.1 "GET\x00\x00\x00\x00\x00\x00\x00".toList (by decide),
    dispatch_requires_nul_padding.2.2.2.2.1 "ADD\x00\x00\x00\x00\x00\x00\x00".toList (by decide)⟩



